import Mathlib

set_option maxRecDepth 100000

/-!
Verification of the dnsleapsecs leap-second codec.

A leap-second announcement is encoded into a 32-bit value presented as IPv4
dotted-quad text:

  bits 31..28: 0xF class-E tag
  bits 27..17: month field (value + 10 = months since December 1971)
  bits 16..15: action (0 = no change, 1 = subtract one, 2 = add one, 3 = illegal)
  bits 14..8:  dTAI (seconds, unsigned)
  bits  7..0:  CRC-8 byte (crc8 over the whole word must equal 0x80)

The definitions below are a shallow embedding of the Go source: `crc8`,
`Decode` and the candidate scan of `LookupHost`, together with a model of the
`fmt.Sscanf(ip, "%d.%d.%d.%d", ...)` parse that `Decode` performs.  Machine
integers are embedded as `Nat` with explicit `% 2 ^ 32` where Go's `uint32`
arithmetic truncates.
-/

/-- One iteration of the loop inside the Go function `crc8`: if the top bit of
the 32-bit working register is set, XOR in the generator constant
`0x12f <<< 23`; then shift left by one, truncated to 32 bits as Go `uint32`
arithmetic does. -/
def crc8Step (crc : Nat) : Nat :=
  let c := if crc &&& (1 <<< 31) ≠ 0 then crc ^^^ (0x12f <<< 23) else crc
  (c <<< 1) % 2 ^ 32

/-- The Go function `crc8`: an MSB-first CRC-8 with polynomial
x^8 + x^5 + x^3 + x^2 + x + 1 over the low 28 bits of the word, seeded with
`0x54a9abf8`.  The input is aligned to the top of the 32-bit register by
`u << (32 - 28)` (truncated to 32 bits), then 28 loop iterations run and the
top byte of the register is returned. -/
def crc8 (u : Nat) : Nat :=
  let bits := 28
  let start := 0x54a9abf8 ^^^ ((u <<< (32 - bits)) % 2 ^ 32)
  (crc8Step^[bits] start) >>> 24

/-- The distinct failure modes of the `fmt.Sscanf(ip, "%d.%d.%d.%d", ...)`
call in `Decode`: no digit where an integer conversion expects one, an
integer too large for the `uint32` operand, or a literal `.` of the format
not matching the input. -/
inductive ParseError where
  | expectedInteger
  | rangeError
  | inputMismatch
deriving DecidableEq

/-- Blank characters skipped by a `%d` conversion before reading digits
(newlines are not skipped by `Sscanf` and make the conversion fail, which the
model reflects by leaving them in place where no digit can match). -/
def isSpaceTab (c : Char) : Bool := c = ' ' || c = '\t'

/-- Value of a run of decimal digit characters, most significant first. -/
def digitsVal (ds : List Char) : Nat :=
  ds.foldl (fun a c => 10 * a + (c.toNat - 48)) 0

/-- Model of one `%d` conversion of `fmt.Sscanf` with a `*uint32` operand:
skip leading blanks, read a maximal non-empty run of decimal digits, and
require the value to fit in 32 bits; return the value and the unconsumed
input. -/
def scanUint32 (l : List Char) : Except ParseError (Nat × List Char) :=
  let l1 := l.dropWhile isSpaceTab
  let ds := l1.takeWhile Char.isDigit
  if ds.isEmpty then .error .expectedInteger
  else if digitsVal ds < 2 ^ 32 then .ok (digitsVal ds, l1.dropWhile Char.isDigit)
  else .error .rangeError

/-- Model of a literal `.` in the `Sscanf` format string: the next input
character must be exactly `.`. -/
def expectDot : List Char → Except ParseError (List Char)
  | '.' :: rest => .ok rest
  | _ => .error .inputMismatch

/-- Model of `fmt.Sscanf(ip, "%d.%d.%d.%d", &o1, &o2, &o3, &o4)` with
`uint32` operands.  `Sscanf` does not require the whole input to be consumed:
anything after the fourth integer is ignored. -/
def parseQuad (s : String) : Except ParseError (Nat × Nat × Nat × Nat) :=
  match scanUint32 s.data with
  | .error e => .error e
  | .ok (o1, r1) =>
    match expectDot r1 with
    | .error e => .error e
    | .ok r1 =>
      match scanUint32 r1 with
      | .error e => .error e
      | .ok (o2, r2) =>
        match expectDot r2 with
        | .error e => .error e
        | .ok r2 =>
          match scanUint32 r2 with
          | .error e => .error e
          | .ok (o3, r3) =>
            match expectDot r3 with
            | .error e => .error e
            | .ok r3 =>
              match scanUint32 r3 with
              | .error e => .error e
              | .ok (o4, _) => .ok (o1, o2, o3, o4)

instance {ε α : Type} [DecidableEq ε] [DecidableEq α] :
    DecidableEq (Except ε α) := fun a b =>
  match a, b with
  | .error x, .error y =>
    if h : x = y then isTrue (by rw [h])
    else isFalse (by intro hc; cases hc; exact h rfl)
  | .error _, .ok _ => isFalse (by intro hc; cases hc)
  | .ok _, .error _ => isFalse (by intro hc; cases hc)
  | .ok x, .ok y =>
    if h : x = y then isTrue (by rw [h])
    else isFalse (by intro hc; cases hc; exact h rfl)

/-- The Go struct `Result`: the announced horizon (`Year`, `Month`), the
current TAI-UTC offset `DTAI`, and the `Delta` applied to it at the end of
that month.  All fields are Go `int`. -/
structure Result where
  Year : Int
  Month : Int
  DTAI : Int
  Delta : Int
deriving DecidableEq

/-- The zero value `Result{}` that the Go code returns alongside every
error. -/
def Result.zero : Result := ⟨0, 0, 0, 0⟩

/-- The Go struct `Error`: an error code (-1 invalid address, -2 invalid
checksum, -3 invalid action, -10 lookup failed, -11 empty response) plus an
optional wrapped cause. -/
structure GoErr (ε : Type) where
  Code : Int
  Err : Option ε
deriving DecidableEq

/-- The 32-bit word assembled by `Decode` from the four scanned integers:
`u := o1<<24; u |= o2<<16; u |= o3<<8; u |= o4`, each shift truncated to 32
bits as Go `uint32` arithmetic does. -/
def quadWord (o1 o2 o3 o4 : Nat) : Nat :=
  ((o1 <<< 24) % 2 ^ 32) ||| ((o2 <<< 16) % 2 ^ 32) ||| ((o3 <<< 8) % 2 ^ 32) ||| o4

/-- The part of the Go function `Decode` that runs after the address text has
been scanned into a 32-bit word: class-E tag gate, CRC gate, bit-field
unpacking, action gate, and conversion to calendar fields. -/
def decodeWord (u : Nat) : Result × Option (GoErr ParseError) :=
  if u >>> 28 ≠ 0xf then (Result.zero, some ⟨-1, none⟩)
  else if crc8 u ≠ 0x80 then (Result.zero, some ⟨-2, none⟩)
  else
    let u1 := u >>> 8
    let o := u1 &&& 0x7f
    let u2 := u1 >>> 7
    let d := u2 &&& 3
    let u3 := u2 >>> 2
    let mn := (u3 &&& 0x7ff) + 10
    if d = 3 then (Result.zero, some ⟨-3, none⟩)
    else
      ({ Year := 1971 + (↑(mn / 12) : Int),
         Month := 1 + (↑(mn % 12) : Int),
         DTAI := (↑o : Int),
         Delta := if d = 0 then 0 else if d = 1 then -1 else 1 }, none)

/-- The Go function `Decode`: scan the dotted-quad text (code -1 with the
wrapped scan failure if fewer than four integers were converted), then run
the word-level gates and unpacking. -/
def Decode (ip : String) : Result × Option (GoErr ParseError) :=
  match parseQuad ip with
  | .error e => (Result.zero, some ⟨-1, some e⟩)
  | .ok (o1, o2, o3, o4) => decodeWord (quadWord o1 o2 o3 o4)

/-- The candidate loop of the Go function `LookupHost`:
`for _, ip = range ips { dr, err = Decode(ip); if err == nil { break } }`.
`st` carries the loop variables `(ip, dr, err)` as they stand when the list
is exhausted; on a successful decode the loop stops at that candidate. -/
def scanCandidates (st : String × Result × Option (GoErr ParseError)) :
    List String → String × Result × Option (GoErr ParseError)
  | [] => st
  | ip :: rest =>
    match Decode ip with
    | (dr, none) => (ip, dr, none)
    | (dr, some e) => scanCandidates (ip, dr, some e) rest

/-- Injection of a `Decode` error into the error type of `LookupHost`, whose
wrapped causes can also be lookup failures. -/
def liftDecodeErr {ε : Type} (g : GoErr ParseError) : GoErr (ε ⊕ ParseError) :=
  ⟨g.Code, g.Err.map Sum.inr⟩

/-- The Go function `LookupHost` after the injected resolver has produced its
outcome: a failed lookup yields code -10 wrapping the cause, an empty
candidate list yields code -11, and otherwise the candidates are decoded in
order by `scanCandidates`, whose loop state starts from the zero values of
the Go locals `ip`, `dr`, `err`. -/
def LookupHost {ε : Type} (lookup : Except ε (List String)) :
    String × Result × Option (GoErr (ε ⊕ ParseError)) :=
  match lookup with
  | .error e => ("", Result.zero, some ⟨-10, some (Sum.inl e)⟩)
  | .ok ips =>
    if ips.length = 0 then ("", Result.zero, some ⟨-11, none⟩)
    else
      let r := scanCandidates ("", Result.zero, none) ips
      (r.1, r.2.1, r.2.2.map liftDecodeErr)

/-- The `TestVectors` table of the Go source: address text, expected result,
expected error (code and wrapped cause). -/
def TestVectors : List (String × Result × Option (GoErr ParseError)) :=
  [ ("240.3.9.77", ⟨1971, 12, 9, 1⟩, none),
    ("240.15.10.108", ⟨1972, 6, 10, 1⟩, none),
    ("242.18.28.160", ⟨1993, 12, 28, 0⟩, none),
    ("255.76.200.237", ⟨2135, 1, 72, -1⟩, none),
    ("127.240.133.76", Result.zero, some ⟨-1, none⟩),
    ("255.209.76.40", Result.zero, some ⟨-2, none⟩),
    ("241.179.152.73", Result.zero, some ⟨-3, none⟩) ]

/-- Decimal digit character (only ever applied to values below 10). -/
def digitChar : Nat → Char
  | 0 => '0' | 1 => '1' | 2 => '2' | 3 => '3' | 4 => '4'
  | 5 => '5' | 6 => '6' | 7 => '7' | 8 => '8' | _ => '9'

/-- Fuelled decimal printer for naturals (most significant digit first); the
fuel only serves to make the recursion structural. -/
def natCharsFuel : Nat → Nat → List Char
  | 0, _ => []
  | fuel + 1, n =>
    if n < 10 then [digitChar n]
    else natCharsFuel fuel (n / 10) ++ [digitChar (n % 10)]

/-- Decimal digit string of a natural number. -/
def natChars (n : Nat) : List Char := natCharsFuel (n + 1) n

/-- Modelled from the spec: helper of the encoder (which the repository does
not contain).  Inverse, on bytes, of the linear part `c ↦ crc8 c ^^^ crc8 0`
of the checksum; the eight constants are the bytes whose images are the eight
single-bit bytes, so that XORing them bit by bit inverts the linear map. -/
def Linv (t : Nat) : Nat :=
  (if t.testBit 0 then 0x86 else 0) ^^^
  (if t.testBit 1 then 0x23 else 0) ^^^
  (if t.testBit 2 then 0x46 else 0) ^^^
  (if t.testBit 3 then 0x8c else 0) ^^^
  (if t.testBit 4 then 0x37 else 0) ^^^
  (if t.testBit 5 then 0x6e else 0) ^^^
  (if t.testBit 6 then 0xdc else 0) ^^^
  (if t.testBit 7 then 0x97 else 0)

/-- Modelled from the spec: the encoder is an external test helper the
repository does not contain; this is "a CRC byte making crc8 of the word
equal 0x80" for a word `w` whose low byte is zero. -/
def crcByte (w : Nat) : Nat := Linv (crc8 w ^^^ 0x80)

/-- Modelled from the spec: the encoder packs the 0xF tag, the month field
`(year - 1971) * 12 + month - 11` (reduced into its 11-bit slot), the action
code for the delta (0 none, 1 subtract, 2 add), the 7-bit dTAI and the CRC
byte into the wire layout.  The fields occupy disjoint bit ranges, so the sum
of the shifted fields is their bitwise OR. -/
def encodeWord (year month dtai : Nat) (delta : Int) : Nat :=
  let mf := (((((year : Int) - 1971) * 12 + (month : Int) - 11) % 2048)).toNat
  let d : Nat := if delta = -1 then 1 else if delta = 1 then 2 else 0
  let w := 0xf * 2 ^ 28 + mf * 2 ^ 17 + d * 2 ^ 15 + dtai % 128 * 2 ^ 8
  w + crcByte w

/-- Modelled from the spec: the dotted-quad text of a 32-bit word, most
significant octet first. -/
def quadStr (u : Nat) : String :=
  ⟨natChars (u >>> 24 &&& 0xff) ++ '.' ::
    (natChars (u >>> 16 &&& 0xff) ++ '.' ::
      (natChars (u >>> 8 &&& 0xff) ++ '.' :: natChars (u &&& 0xff)))⟩

/-- Modelled from the spec: encoding a (year, month, dtai, delta) tuple into
the 32-bit wire layout and presenting it as dotted-quad text. -/
def encodeAddr (year month dtai : Nat) (delta : Int) : String :=
  quadStr (encodeWord year month dtai delta)

/-- Splitting a character list at every `.` (each `.` is a separator, so a
trailing `.` yields a trailing empty part). -/
def splitDots : List Char → List (List Char)
  | [] => [[]]
  | '.' :: rest => [] :: splitDots rest
  | c :: rest =>
    match splitDots rest with
    | [] => [[c]]
    | p :: ps => (c :: p) :: ps

/-- The parse-gate shape as the specification claim words it: the string
consists of exactly four dot-separated integer octets and of nothing else. -/
def exactQuadShape (s : String) : Bool :=
  let parts := splitDots s.data
  parts.length == 4 && parts.all (fun p => !p.isEmpty && p.all Char.isDigit)

/-- The shape invariant the specification states for a successfully decoded
`Result`: month in [1, 12], non-negative dTAI, delta in {-1, 0, +1}. -/
def resultOK (r : Result) : Prop :=
  1 ≤ r.Month ∧ r.Month ≤ 12 ∧ 0 ≤ r.DTAI ∧
    (r.Delta = -1 ∨ r.Delta = 0 ∨ r.Delta = 1)

/-! ### Bitwise infrastructure -/

lemma xor_lt_256 {x y : Nat} (hx : x < 256) (hy : y < 256) : x ^^^ y < 256 :=
  Nat.xor_lt_two_pow (n := 8) hx hy

lemma shiftLeft_mod_xor (x y k w : Nat) :
    ((x ^^^ y) <<< k) % 2 ^ w = ((x <<< k) % 2 ^ w) ^^^ ((y <<< k) % 2 ^ w) := by
  apply Nat.eq_of_testBit_eq
  intro i
  simp only [Nat.testBit_mod_two_pow, Nat.testBit_shiftLeft, Nat.testBit_xor]
  cases hd : decide (i < w) <;> cases he : decide (i ≥ k) <;>
    cases x.testBit (i - k) <;> cases y.testBit (i - k) <;> simp

lemma shiftRight_xor (x y k : Nat) : (x ^^^ y) >>> k = (x >>> k) ^^^ (y >>> k) := by
  apply Nat.eq_of_testBit_eq
  intro i
  simp [Nat.testBit_shiftRight, Nat.testBit_xor]

lemma nat_xor_left_comm (a b c : Nat) : a ^^^ (b ^^^ c) = b ^^^ (a ^^^ c) := by
  rw [← Nat.xor_assoc, Nat.xor_comm a b, Nat.xor_assoc]

/-- The branch of the CRC loop, rewritten as an unconditional XOR. -/
lemma crc8Step_cond_xor (x P : Nat) :
    (if x &&& (1 <<< 31) ≠ 0 then x ^^^ P else x) =
      x ^^^ (if x.testBit 31 then P else 0) := by
  have hand : x &&& (1 <<< 31) = (x.testBit 31).toNat * 2 ^ 31 := by
    rw [show (1 <<< 31 : Nat) = 2 ^ 31 from by norm_num [Nat.shiftLeft_eq],
      Nat.and_two_pow]
  cases h : x.testBit 31
  · rw [if_neg (by rw [hand, h]; simp), if_neg (by simp [h]), Nat.xor_zero]
  · rw [if_pos (by rw [hand, h]; norm_num), if_pos rfl]

/-- Each CRC iteration is linear over XOR. -/
lemma crc8Step_xor (a b : Nat) : crc8Step (a ^^^ b) = crc8Step a ^^^ crc8Step b := by
  unfold crc8Step
  simp only [crc8Step_cond_xor]
  rw [show ((a ^^^ b) ^^^ (if (a ^^^ b).testBit 31 then 0x12f <<< 23 else 0)) =
        ((a ^^^ (if a.testBit 31 then 0x12f <<< 23 else 0)) ^^^
          (b ^^^ (if b.testBit 31 then 0x12f <<< 23 else 0))) from ?_]
  · exact shiftLeft_mod_xor _ _ 1 32
  · rw [Nat.testBit_xor]
    cases ha : a.testBit 31 <;> cases hb : b.testBit 31 <;>
      simp [Nat.xor_assoc, nat_xor_left_comm, Nat.xor_comm]

lemma crc8Step_iterate_xor (n a b : Nat) :
    crc8Step^[n] (a ^^^ b) = crc8Step^[n] a ^^^ crc8Step^[n] b := by
  induction n with
  | zero => rfl
  | succ m ih =>
    rw [Function.iterate_succ_apply', Function.iterate_succ_apply',
      Function.iterate_succ_apply', ih, crc8Step_xor]

/-- The checksum is affine over XOR: the nonlinearity is exactly the seed. -/
lemma crc8_xor (x y : Nat) : crc8 (x ^^^ y) = crc8 x ^^^ crc8 y ^^^ crc8 0 := by
  unfold crc8
  simp only [Nat.zero_shiftLeft, Nat.zero_mod, Nat.xor_zero]
  rw [show (0x54a9abf8 ^^^ (((x ^^^ y) <<< (32 - 28)) % 2 ^ 32)) =
        ((0x54a9abf8 ^^^ ((x <<< (32 - 28)) % 2 ^ 32)) ^^^
          (0x54a9abf8 ^^^ ((y <<< (32 - 28)) % 2 ^ 32)) ^^^ 0x54a9abf8) from ?_]
  · rw [crc8Step_iterate_xor, crc8Step_iterate_xor, shiftRight_xor, shiftRight_xor]
  · rw [shiftLeft_mod_xor x y]
    simp only [Nat.xor_assoc, Nat.xor_comm, nat_xor_left_comm, Nat.xor_self,
      Nat.xor_zero, Nat.zero_xor]

lemma crc8Step_iterate_lt (n s : Nat) (hs : s < 2 ^ 32) : crc8Step^[n] s < 2 ^ 32 := by
  induction n generalizing s with
  | zero => exact hs
  | succ m ih =>
    rw [Function.iterate_succ_apply]
    exact ih _ (by unfold crc8Step; exact Nat.mod_lt _ (by norm_num))

lemma crc8_lt_256 (u : Nat) : crc8 u < 256 := by
  unfold crc8
  show (crc8Step^[28] (0x54a9abf8 ^^^ ((u <<< (32 - 28)) % 2 ^ 32))) >>> 24 < 256
  have h32 : crc8Step^[28] (0x54a9abf8 ^^^ ((u <<< (32 - 28)) % 2 ^ 32)) < 2 ^ 32 :=
    crc8Step_iterate_lt 28 _
      (Nat.xor_lt_two_pow (by norm_num) (Nat.mod_lt _ (by norm_num)))
  rw [Nat.shiftRight_eq_div_pow]
  exact (Nat.div_lt_iff_lt_mul (by norm_num)).mpr (lt_of_lt_of_le h32 (by norm_num))

/-- Adding a value into the zero low bits of another is the same as OR and
the same as XOR. -/
lemma add_disjoint_or_xor {a b k : Nat} (ha : a % 2 ^ k = 0) (hb : b < 2 ^ k) :
    a + b = (a ||| b) ∧ a + b = (a ^^^ b) := by
  have hx : a = 2 ^ k * (a / 2 ^ k) := by
    conv_lhs => rw [← Nat.div_add_mod a (2 ^ k)]
    omega
  constructor <;>
  · apply Nat.eq_of_testBit_eq
    intro i
    rw [hx, Nat.testBit_mul_pow_two_add _ hb]
    first
    | rw [Nat.testBit_or]
    | rw [Nat.testBit_xor]
    rw [show 2 ^ k * (a / 2 ^ k) = (a / 2 ^ k) <<< k from by
      rw [Nat.shiftLeft_eq]; ring]
    rw [Nat.testBit_shiftLeft]
    rcases Decidable.em (i < k) with h | h
    · rw [if_pos h]
      have : ¬ (i ≥ k) := by omega
      simp [this]
    · rw [if_neg h]
      have hbi : b.testBit i = false :=
        Nat.testBit_eq_false_of_lt (lt_of_lt_of_le hb (Nat.pow_le_pow_right (by norm_num) (by omega)))
      simp [hbi, show i ≥ k from by omega]

/-! ### Checksum facts established by evaluation -/

/-- `Linv` inverts the linear part of `crc8` on bytes. -/
lemma Linv_crc8 : ∀ t, t < 256 → crc8 (Linv t) ^^^ crc8 0 = t := by decide

lemma Linv_lt_256 (t : Nat) : Linv t < 256 := by
  unfold Linv
  repeat' apply xor_lt_256
  all_goals split <;> norm_num

/-- The byte chosen by the encoder makes the checksum of the whole word come
out as the 0x80 sentinel. -/
lemma crc8_crcByte {w : Nat} (hw : w % 2 ^ 8 = 0) : crc8 (w + crcByte w) = 0x80 := by
  have ht : crc8 w ^^^ 0x80 < 256 := xor_lt_256 (crc8_lt_256 w) (by norm_num)
  have hc : crc8 (crcByte w) ^^^ crc8 0 = crc8 w ^^^ 0x80 := Linv_crc8 _ ht
  have hxor : w + crcByte w = w ^^^ crcByte w :=
    (add_disjoint_or_xor hw (Linv_lt_256 _)).2
  rw [hxor, crc8_xor]
  rw [Nat.xor_assoc, hc]
  rw [← Nat.xor_assoc, Nat.xor_self, Nat.zero_xor]

/-! ### Decimal printing and how the scanner reads it back -/

lemma natCharsFuel_mono : ∀ n fuel fuel', n < fuel → n < fuel' →
    natCharsFuel fuel n = natCharsFuel fuel' n := by
  intro n
  induction n using Nat.strong_induction_on with
  | _ n ih =>
    intro fuel fuel' hf hf'
    cases fuel with
    | zero => omega
    | succ f =>
      cases fuel' with
      | zero => omega
      | succ f' =>
        show (if n < 10 then [digitChar n]
            else natCharsFuel f (n / 10) ++ [digitChar (n % 10)]) =
          (if n < 10 then [digitChar n]
            else natCharsFuel f' (n / 10) ++ [digitChar (n % 10)])
        rcases Decidable.em (n < 10) with h | h
        · rw [if_pos h, if_pos h]
        · rw [if_neg h, if_neg h, ih (n / 10) (by omega) f f' (by omega) (by omega)]

lemma natChars_eq (n : Nat) :
    natChars n = if n < 10 then [digitChar n]
      else natChars (n / 10) ++ [digitChar (n % 10)] := by
  show (if n < 10 then [digitChar n]
      else natCharsFuel n (n / 10) ++ [digitChar (n % 10)]) = _
  rcases Decidable.em (n < 10) with h | h
  · rw [if_pos h, if_pos h]
  · rw [if_neg h, if_neg h,
      natCharsFuel_mono (n / 10) n (n / 10 + 1) (by omega) (by omega)]
    rfl

lemma digitChar_isDigit : ∀ d, d < 10 → (digitChar d).isDigit = true := by decide

lemma digitChar_toNat : ∀ d, d < 10 → (digitChar d).toNat - 48 = d := by decide

lemma natChars_all_isDigit : ∀ n, ∀ c ∈ natChars n, c.isDigit = true := by
  intro n
  induction n using Nat.strong_induction_on with
  | _ n ih =>
    intro c hc
    rw [natChars_eq] at hc
    rcases Decidable.em (n < 10) with h | h
    · rw [if_pos h] at hc
      rw [List.mem_singleton] at hc
      exact hc ▸ digitChar_isDigit n h
    · rw [if_neg h] at hc
      rcases List.mem_append.mp hc with hm | hm
      · exact ih (n / 10) (by omega) c hm
      · rw [List.mem_singleton] at hm
        exact hm ▸ digitChar_isDigit (n % 10) (by omega)

lemma natChars_ne_nil (n : Nat) : natChars n ≠ [] := by
  rw [natChars_eq]
  split <;> simp

lemma digitsVal_append (l : List Char) (c : Char) :
    digitsVal (l ++ [c]) = 10 * digitsVal l + (c.toNat - 48) := by
  unfold digitsVal
  rw [List.foldl_append]
  rfl

lemma digitsVal_natChars : ∀ n, digitsVal (natChars n) = n := by
  intro n
  induction n using Nat.strong_induction_on with
  | _ n ih =>
    rw [natChars_eq]
    rcases Decidable.em (n < 10) with h | h
    · rw [if_pos h]
      show 10 * 0 + ((digitChar n).toNat - 48) = n
      rw [digitChar_toNat n h]
      omega
    · rw [if_neg h, digitsVal_append, ih (n / 10) (by omega),
        digitChar_toNat (n % 10) (by omega)]
      omega

lemma takeWhile_dropWhile_all_append (p : Char → Bool) :
    ∀ (l r : List Char), (∀ c ∈ l, p c = true) →
      (∀ c, r.head? = some c → p c = false) →
      (l ++ r).takeWhile p = l ∧ (l ++ r).dropWhile p = r := by
  intro l
  induction l with
  | nil =>
    intro r _ hr
    constructor
    · cases r with
      | nil => rfl
      | cons c t =>
        rw [List.nil_append, List.takeWhile_cons, hr c rfl]
        simp
    · cases r with
      | nil => rfl
      | cons c t =>
        rw [List.nil_append, List.dropWhile_cons, hr c rfl]
        simp
  | cons a l ih =>
    intro r hl hr
    have hpa : p a = true := hl a (List.mem_cons_self a l)
    have hres := ih r (fun c hc => hl c (List.mem_cons_of_mem a hc)) hr
    constructor
    · rw [List.cons_append, List.takeWhile_cons, hpa, if_pos rfl, hres.1]
    · rw [List.cons_append, List.dropWhile_cons, hpa, if_pos rfl, hres.2]

lemma isDigit_not_spaceTab {c : Char} (h : c.isDigit = true) : isSpaceTab c = false := by
  unfold isSpaceTab
  rcases Decidable.em (c = ' ') with rfl | h1
  · exact absurd h (by decide)
  · rcases Decidable.em (c = '\t') with rfl | h2
    · exact absurd h (by decide)
    · rw [decide_eq_false h1, decide_eq_false h2]
      rfl

/-- The scanner reads back a printed number followed by anything that does
not start with a digit. -/
lemma scanUint32_exact (n : Nat) (r : List Char) (hn : n < 2 ^ 32)
    (hr : ∀ c, r.head? = some c → c.isDigit = false) :
    scanUint32 (natChars n ++ r) = .ok (n, r) := by
  obtain ⟨d, t, hd⟩ : ∃ d t, natChars n = d :: t := by
    cases h : natChars n with
    | nil => exact absurd h (natChars_ne_nil n)
    | cons d t => exact ⟨d, t, rfl⟩
  have hall := natChars_all_isDigit n
  have hdd : d.isDigit = true := hall d (by rw [hd]; exact List.mem_cons_self _ _)
  have hTD := takeWhile_dropWhile_all_append Char.isDigit (natChars n) r hall hr
  have h1 : (natChars n ++ r).dropWhile isSpaceTab = natChars n ++ r := by
    rw [hd, List.cons_append, List.dropWhile_cons, isDigit_not_spaceTab hdd]
    simp
  simp only [scanUint32]
  rw [h1, hTD.1, hTD.2, digitsVal_natChars, hd]
  rw [show (d :: t).isEmpty = false from rfl]
  rw [if_neg (by simp), if_pos hn]

lemma expectDot_cons (l : List Char) : expectDot ('.' :: l) = .ok l := rfl

lemma dot_head_not_digit (l : List Char) :
    ∀ c, (('.' :: l).head?) = some c → c.isDigit = false := by
  intro c hc
  cases hc
  decide

/-- The scanner reads back a full printed dotted quad (with arbitrary
non-digit-initial trailing input after the fourth number). -/
lemma parseQuad_exact (o1 o2 o3 o4 : Nat) (r : List Char)
    (h1 : o1 < 2 ^ 32) (h2 : o2 < 2 ^ 32) (h3 : o3 < 2 ^ 32) (h4 : o4 < 2 ^ 32)
    (hr : ∀ c, r.head? = some c → c.isDigit = false) :
    parseQuad ⟨natChars o1 ++ '.' :: (natChars o2 ++ '.' ::
      (natChars o3 ++ '.' :: (natChars o4 ++ r)))⟩ = .ok (o1, o2, o3, o4) := by
  unfold parseQuad
  rw [show (String.mk (natChars o1 ++ '.' :: (natChars o2 ++ '.' ::
      (natChars o3 ++ '.' :: (natChars o4 ++ r))))).data =
    natChars o1 ++ '.' :: (natChars o2 ++ '.' ::
      (natChars o3 ++ '.' :: (natChars o4 ++ r))) from rfl]
  rw [scanUint32_exact o1 _ h1 (dot_head_not_digit _)]
  dsimp only
  rw [expectDot_cons]
  dsimp only
  rw [scanUint32_exact o2 _ h2 (dot_head_not_digit _)]
  dsimp only
  rw [expectDot_cons]
  dsimp only
  rw [scanUint32_exact o3 _ h3 (dot_head_not_digit _)]
  dsimp only
  rw [expectDot_cons]
  dsimp only
  rw [scanUint32_exact o4 _ h4 hr]

/-! ### Word-level arithmetic -/

lemma land_mod (x n : Nat) : x &&& (2 ^ n - 1) = x % 2 ^ n :=
  Nat.and_pow_two_sub_one_eq_mod x n

/-- Reassembling the four octets of a 32-bit word gives the word back. -/
lemma quadWord_octets (u : Nat) (hu : u < 2 ^ 32) :
    quadWord (u >>> 24 &&& 0xff) (u >>> 16 &&& 0xff) (u >>> 8 &&& 0xff) (u &&& 0xff)
      = u := by
  have hff : (0xff : Nat) = 2 ^ 8 - 1 := by norm_num
  have e1 : u >>> 24 &&& 0xff = u / 2 ^ 24 % 2 ^ 8 := by
    rw [hff, land_mod, Nat.shiftRight_eq_div_pow]
  have e2 : u >>> 16 &&& 0xff = u / 2 ^ 16 % 2 ^ 8 := by
    rw [hff, land_mod, Nat.shiftRight_eq_div_pow]
  have e3 : u >>> 8 &&& 0xff = u / 2 ^ 8 % 2 ^ 8 := by
    rw [hff, land_mod, Nat.shiftRight_eq_div_pow]
  have e4 : u &&& 0xff = u % 2 ^ 8 := by rw [hff, land_mod]
  rw [e1, e2, e3, e4]
  unfold quadWord
  rw [Nat.shiftLeft_eq, Nat.shiftLeft_eq, Nat.shiftLeft_eq]
  rw [Nat.mod_eq_of_lt (show u / 2 ^ 24 % 2 ^ 8 * 2 ^ 24 < 2 ^ 32 by omega),
    Nat.mod_eq_of_lt (show u / 2 ^ 16 % 2 ^ 8 * 2 ^ 16 < 2 ^ 32 by omega),
    Nat.mod_eq_of_lt (show u / 2 ^ 8 % 2 ^ 8 * 2 ^ 8 < 2 ^ 32 by omega)]
  rw [← (add_disjoint_or_xor (k := 24)
      (show u / 2 ^ 24 % 2 ^ 8 * 2 ^ 24 % 2 ^ 24 = 0 by omega)
      (show u / 2 ^ 16 % 2 ^ 8 * 2 ^ 16 < 2 ^ 24 by omega)).1]
  rw [← (add_disjoint_or_xor (k := 16)
      (show (u / 2 ^ 24 % 2 ^ 8 * 2 ^ 24 + u / 2 ^ 16 % 2 ^ 8 * 2 ^ 16) % 2 ^ 16 = 0
        by omega)
      (show u / 2 ^ 8 % 2 ^ 8 * 2 ^ 8 < 2 ^ 16 by omega)).1]
  rw [← (add_disjoint_or_xor (k := 8)
      (show (u / 2 ^ 24 % 2 ^ 8 * 2 ^ 24 + u / 2 ^ 16 % 2 ^ 8 * 2 ^ 16 +
          u / 2 ^ 8 % 2 ^ 8 * 2 ^ 8) % 2 ^ 8 = 0 by omega)
      (show u % 2 ^ 8 < 2 ^ 8 from Nat.mod_lt _ (by norm_num))).1]
  omega

/-- `decodeWord` on a word laid out as tag, month field, action, dTAI and a
checksum byte that passes the CRC gate. -/
lemma decodeWord_fields (mf d o c : Nat) (hmf : mf < 2048) (hd : d ≤ 2)
    (ho : o < 128) (hc : c < 256)
    (hcrc : crc8 (0xf * 2 ^ 28 + mf * 2 ^ 17 + d * 2 ^ 15 + o * 2 ^ 8 + c) = 0x80) :
    decodeWord (0xf * 2 ^ 28 + mf * 2 ^ 17 + d * 2 ^ 15 + o * 2 ^ 8 + c) =
      ({ Year := 1971 + (↑((mf + 10) / 12) : Int),
         Month := 1 + (↑((mf + 10) % 12) : Int),
         DTAI := (↑o : Int),
         Delta := if d = 0 then 0 else if d = 1 then -1 else 1 }, none) := by
  set u := 0xf * 2 ^ 28 + mf * 2 ^ 17 + d * 2 ^ 15 + o * 2 ^ 8 + c
  have htag : u >>> 28 = 0xf := by
    rw [Nat.shiftRight_eq_div_pow]
    omega
  have ho' : u >>> 8 &&& 0x7f = o := by
    rw [show (0x7f : Nat) = 2 ^ 7 - 1 from by norm_num, land_mod,
      Nat.shiftRight_eq_div_pow]
    omega
  have hd' : u >>> 8 >>> 7 &&& 3 = d := by
    rw [show (3 : Nat) = 2 ^ 2 - 1 from by norm_num, land_mod,
      Nat.shiftRight_eq_div_pow, Nat.shiftRight_eq_div_pow]
    omega
  have hmf' : u >>> 8 >>> 7 >>> 2 &&& 0x7ff = mf := by
    rw [show (0x7ff : Nat) = 2 ^ 11 - 1 from by norm_num, land_mod,
      Nat.shiftRight_eq_div_pow, Nat.shiftRight_eq_div_pow, Nat.shiftRight_eq_div_pow]
    omega
  simp only [decodeWord]
  rw [if_neg (by simp [htag]), if_neg (by simp [hcrc]), ho', hd', hmf']
  rw [if_neg (by omega)]

/-- Under the validity constraints of the round trip the encoder's word is
the plain sum of its shifted fields. -/
lemma encodeWord_eq (year month dtai : Nat) (delta : Int)
    (hy1 : 1971 ≤ year) (hy2 : year ≤ 2140) (hm1 : 1 ≤ month) (hm2 : month ≤ 12)
    (hdtai : dtai ≤ 127) (hnov : 1971 * 12 + 11 ≤ year * 12 + month) :
    encodeWord year month dtai delta =
      0xf * 2 ^ 28 + ((year - 1971) * 12 + month - 11) * 2 ^ 17 +
        (if delta = -1 then 1 else if delta = 1 then 2 else 0) * 2 ^ 15 +
        dtai * 2 ^ 8 +
        crcByte (0xf * 2 ^ 28 + ((year - 1971) * 12 + month - 11) * 2 ^ 17 +
          (if delta = -1 then 1 else if delta = 1 then 2 else 0) * 2 ^ 15 +
          dtai * 2 ^ 8) := by
  unfold encodeWord
  have h0 : (0 : Int) ≤ ((year : Int) - 1971) * 12 + (month : Int) - 11 := by omega
  have hlt : ((year : Int) - 1971) * 12 + (month : Int) - 11 < 2048 := by omega
  have hmf : (((((year : Int) - 1971) * 12 + (month : Int) - 11) % 2048)).toNat
      = (year - 1971) * 12 + month - 11 := by
    rw [Int.emod_eq_of_lt h0 hlt]
    omega
  rw [hmf, Nat.mod_eq_of_lt (show dtai < 128 by omega)]

/-- The dotted-quad text of a 32-bit word scans back to its four octets. -/
lemma parseQuad_quadStr (u : Nat) (hu : u < 2 ^ 32) :
    parseQuad (quadStr u) =
      .ok (u >>> 24 &&& 0xff, u >>> 16 &&& 0xff, u >>> 8 &&& 0xff, u &&& 0xff) := by
  have hb : ∀ x : Nat, x &&& 0xff < 2 ^ 32 := by
    intro x
    rw [show (0xff : Nat) = 2 ^ 8 - 1 from by norm_num, land_mod]
    have := Nat.mod_lt x (show 0 < 2 ^ 8 by norm_num)
    omega
  unfold quadStr
  rw [show (natChars (u &&& 0xff) : List Char) = natChars (u &&& 0xff) ++ []
    from (List.append_nil _).symm]
  exact parseQuad_exact _ _ _ _ [] (hb _) (hb _) (hb _) (hb _)
    (fun c hc => by cases hc)

/-! ### Claims -/

/-- C1 (amended): for every tuple with year in [1971, 2140], month in [1, 12],
dtai in [0, 127] and delta in {-1, 0, +1}, *except* the ten months before
November 1971 (whose month field `(year - 1971) * 12 + month - 11` would be
negative and therefore has no encoding in the 11-bit slot), encoding the
tuple into the 32-bit wire layout and applying `Decode` to its dotted-quad
text yields exactly the original tuple. -/
theorem decode_encode_roundtrip (year month dtai : Nat) (delta : Int)
    (hy1 : 1971 ≤ year) (hy2 : year ≤ 2140) (hm1 : 1 ≤ month) (hm2 : month ≤ 12)
    (hdtai : dtai ≤ 127) (hdelta : delta = -1 ∨ delta = 0 ∨ delta = 1)
    (hnov : ¬(year = 1971 ∧ month ≤ 10)) :
    Decode (encodeAddr year month dtai delta) =
      ({ Year := (year : Int), Month := (month : Int), DTAI := (dtai : Int),
         Delta := delta }, none) := by
  have hnov' : 1971 * 12 + 11 ≤ year * 12 + month := by omega
  set mf := (year - 1971) * 12 + month - 11 with hmf
  set dc := (if delta = -1 then 1 else if delta = 1 then 2 else 0 : Nat) with hdc
  set w := 0xf * 2 ^ 28 + mf * 2 ^ 17 + dc * 2 ^ 15 + dtai * 2 ^ 8 with hw
  have hmfbound : mf < 2048 := by omega
  have hdcbound : dc ≤ 2 := by
    rw [hdc]
    split
    · norm_num
    · split <;> norm_num
  have hcb : crcByte w < 256 := Linv_lt_256 _
  have hwmod : w % 2 ^ 8 = 0 := by omega
  have hcrc : crc8 (w + crcByte w) = 0x80 := crc8_crcByte hwmod
  have hu32 : w + crcByte w < 2 ^ 32 := by omega
  have henc : encodeWord year month dtai delta = w + crcByte w := by
    rw [encodeWord_eq year month dtai delta hy1 hy2 hm1 hm2 hdtai hnov']
  unfold encodeAddr
  rw [henc]
  unfold Decode
  rw [parseQuad_quadStr _ hu32]
  dsimp only
  rw [quadWord_octets _ hu32]
  rw [hw]
  rw [decodeWord_fields mf dc dtai
    (crcByte (0xf * 2 ^ 28 + mf * 2 ^ 17 + dc * 2 ^ 15 + dtai * 2 ^ 8))
    hmfbound hdcbound (by omega) hcb (by rw [← hw]; exact hcrc)]
  have hyear : 1971 + (↑((mf + 10) / 12) : Int) = (year : Int) := by omega
  have hmonth : 1 + (↑((mf + 10) % 12) : Int) = (month : Int) := by omega
  have hdel : (if dc = 0 then 0 else if dc = 1 then -1 else 1 : Int) = delta := by
    rcases hdelta with rfl | rfl | rfl <;> simp [hdc]
  rw [hyear, hmonth, hdel]

/-- Witness for C1: the Bulletin C 49 example from the source documentation,
June 2015 with dTAI 35 and delta +1, encoded and decoded back. -/
theorem decode_encode_roundtrip_witness :
    Decode (encodeAddr 2015 6 35 1) =
      ({ Year := 2015, Month := 6, DTAI := 35, Delta := 1 }, none) :=
  decode_encode_roundtrip 2015 6 35 1 (by norm_num) (by norm_num) (by norm_num)
    (by norm_num) (by norm_num) (by norm_num) (by norm_num)

/-- Counterexample to C1 as stated: the tuple (1971, January, 0, 0) lies in
the claimed domain, but encoding it into the wire layout and decoding the
dotted-quad text does not give the tuple back (the negative month field
wraps in its 11-bit slot and decodes as September 2141). -/
theorem decode_encode_roundtrip_counterexample :
    Decode (encodeAddr 1971 1 0 0) ≠
      ({ Year := 1971, Month := 1, DTAI := 0, Delta := 0 }, none) := by decide

/-- Exhaustive case analysis of `decodeWord`: one of the three errors with
the zero result, or the unpacked result with no error. -/
lemma decodeWord_cases (u : Nat) :
    decodeWord u = (Result.zero, some ⟨-1, none⟩) ∨
    decodeWord u = (Result.zero, some ⟨-2, none⟩) ∨
    decodeWord u = (Result.zero, some ⟨-3, none⟩) ∨
    decodeWord u =
      ({ Year := 1971 + (↑(((u >>> 8 >>> 7 >>> 2 &&& 0x7ff) + 10) / 12) : Int),
         Month := 1 + (↑(((u >>> 8 >>> 7 >>> 2 &&& 0x7ff) + 10) % 12) : Int),
         DTAI := (↑(u >>> 8 &&& 0x7f) : Int),
         Delta := if u >>> 8 >>> 7 &&& 3 = 0 then 0
           else if u >>> 8 >>> 7 &&& 3 = 1 then -1 else 1 }, none) := by
  unfold decodeWord
  split
  · exact Or.inl rfl
  · split
    · exact Or.inr (Or.inl rfl)
    · dsimp only
      split
      · exact Or.inr (Or.inr (Or.inl rfl))
      · exact Or.inr (Or.inr (Or.inr rfl))

/-- Per-candidate outcome split: a successful decode satisfies the result
shape invariant, a failed one carries the zero result. -/
lemma decode_split (s : String) :
    ((Decode s).2 = none → resultOK (Decode s).1) ∧
    ((Decode s).2 ≠ none → (Decode s).1 = Result.zero) := by
  unfold Decode
  cases hp : parseQuad s with
  | error e => exact ⟨fun h => absurd h (by simp), fun _ => rfl⟩
  | ok q =>
    obtain ⟨o1, o2, o3, o4⟩ := q
    dsimp only
    rcases decodeWord_cases (quadWord o1 o2 o3 o4) with h | h | h | h <;> rw [h]
    · exact ⟨fun h => absurd h (by simp), fun _ => rfl⟩
    · exact ⟨fun h => absurd h (by simp), fun _ => rfl⟩
    · exact ⟨fun h => absurd h (by simp), fun _ => rfl⟩
    · refine ⟨fun _ => ?_, fun hne => absurd rfl hne⟩
      have hm : (quadWord o1 o2 o3 o4) >>> 8 >>> 7 >>> 2 &&& 0x7ff < 2048 := by
        rw [show (0x7ff : Nat) = 2 ^ 11 - 1 from by norm_num, land_mod]
        exact Nat.mod_lt _ (by norm_num)
      unfold resultOK
      dsimp only
      have := Nat.mod_lt ((quadWord o1 o2 o3 o4 >>> 8 >>> 7 >>> 2 &&& 0x7ff) + 10)
        (show 0 < 12 by norm_num)
      refine ⟨by omega, by omega, by omega, ?_⟩
      split
      · exact Or.inr (Or.inl rfl)
      · split
        · exact Or.inl rfl
        · exact Or.inr (Or.inr rfl)

/-- The invariant the candidate loop maintains once it has run at least one
iteration: the returned triple is consistent with decoding the returned
address. -/
lemma scanCandidates_invariant :
    ∀ (ips : List String) (st : String × Result × Option (GoErr ParseError)),
      ips ≠ [] →
      ((scanCandidates st ips).2.2 = none →
        (scanCandidates st ips).2.1 = (Decode (scanCandidates st ips).1).1 ∧
        (Decode (scanCandidates st ips).1).2 = none) ∧
      ((scanCandidates st ips).2.2 ≠ none →
        (scanCandidates st ips).2.1 = Result.zero) := by
  intro ips
  induction ips with
  | nil => intro st h; exact absurd rfl h
  | cons a rest ih =>
    intro st _
    show (let r := match Decode a with
        | (dr, none) => (a, dr, none)
        | (dr, some e) => scanCandidates (a, dr, some e) rest
      ((r.2.2 = none → r.2.1 = (Decode r.1).1 ∧ (Decode r.1).2 = none) ∧
        (r.2.2 ≠ none → r.2.1 = Result.zero)))
    cases ha : (Decode a).2 with
    | none =>
      rw [show Decode a = ((Decode a).1, none) from by rw [← ha]]
      exact ⟨fun _ => ⟨rfl, ha⟩, fun hne => absurd rfl hne⟩
    | some e =>
      rw [show Decode a = ((Decode a).1, some e) from by rw [← ha]]
      dsimp only
      cases rest with
      | nil =>
        refine ⟨fun h => absurd h (by simp [scanCandidates]), fun _ => ?_⟩
        show (Decode a).1 = Result.zero
        exact (decode_split a).2 (by rw [ha]; exact fun h => by cases h)
      | cons b rest2 => exact ih _ (List.cons_ne_nil b rest2)

/-- The candidate loop stops at the first success, whatever follows it. -/
lemma scanCandidates_first_success :
    ∀ (pre : List String) (ip : String) (post : List String)
      (st : String × Result × Option (GoErr ParseError)),
      (∀ p ∈ pre, (Decode p).2 ≠ none) → (Decode ip).2 = none →
      scanCandidates st (pre ++ ip :: post) = (ip, (Decode ip).1, none) := by
  intro pre
  induction pre with
  | nil =>
    intro ip post st _ hip
    rw [List.nil_append]
    show (match Decode ip with
      | (dr, none) => (ip, dr, none)
      | (dr, some e) => scanCandidates (ip, dr, some e) post) = _
    rw [show Decode ip = ((Decode ip).1, none) from by rw [← hip]]
  | cons a pre ih =>
    intro ip post st hpre hip
    rw [List.cons_append]
    cases ha : (Decode a).2 with
    | none => exact absurd ha (hpre a (List.mem_cons_self _ _))
    | some e =>
      show (match Decode a with
        | (dr, none) => (a, dr, none)
        | (dr, some e) => scanCandidates (a, dr, some e) (pre ++ ip :: post)) = _
      rw [show Decode a = ((Decode a).1, some e) from by rw [← ha]]
      exact ih ip post _ (fun p hp => hpre p (List.mem_cons_of_mem _ hp)) hip

/-- When every candidate fails, the loop ends on the last one. -/
lemma scanCandidates_all_fail :
    ∀ (ips : List String) (h : ips ≠ [])
      (st : String × Result × Option (GoErr ParseError)),
      (∀ p ∈ ips, (Decode p).2 ≠ none) →
      scanCandidates st ips =
        (ips.getLast h, (Decode (ips.getLast h)).1, (Decode (ips.getLast h)).2) := by
  intro ips
  induction ips with
  | nil => intro h; exact absurd rfl h
  | cons a rest ih =>
    intro h st hall
    cases ha : (Decode a).2 with
    | none => exact absurd ha (hall a (List.mem_cons_self _ _))
    | some e =>
      cases rest with
      | nil =>
        show (match Decode a with
          | (dr, none) => (a, dr, none)
          | (dr, some e) => scanCandidates (a, dr, some e) []) = _
        rw [show Decode a = ((Decode a).1, some e) from by rw [← ha]]
        show (a, (Decode a).1, some e) = _
        rw [show ([a].getLast h) = a from rfl, ← ha]
      | cons b rest2 =>
        show (match Decode a with
          | (dr, none) => (a, dr, none)
          | (dr, some e) => scanCandidates (a, dr, some e) (b :: rest2)) = _
        rw [show Decode a = ((Decode a).1, some e) from by rw [← ha]]
        dsimp only
        rw [List.getLast_cons (by simp : (b :: rest2 : List String) ≠ [])]
        exact ih (by simp) _ (fun p hp => hall p (List.mem_cons_of_mem _ hp))

/-- C2: Decode reproduces each of the seven published reference vectors
exactly: the four valid encodings decode to their documented results, and
the three invalid addresses yield the invalid-address (-1), invalid-checksum
(-2) and invalid-action (-3) errors respectively. -/
theorem decode_test_vectors : ∀ tv ∈ TestVectors, Decode tv.1 = tv.2 := by decide

/-- Witness for C2: the successful reference vector, decoded concretely. -/
theorem decode_test_vectors_witness :
    (("240.3.9.77", ({ Year := 1971, Month := 12, DTAI := 9, Delta := 1 } : Result),
        (none : Option (GoErr ParseError))) ∈ TestVectors) ∧
    Decode "240.3.9.77" =
      ({ Year := 1971, Month := 12, DTAI := 9, Delta := 1 }, none) :=
  ⟨by decide,
    decode_test_vectors
      ("240.3.9.77", ({ Year := 1971, Month := 12, DTAI := 9, Delta := 1 } : Result),
        (none : Option (GoErr ParseError))) (by decide)⟩

/-- C3: the resolver tries the candidates strictly in list order: the first
candidate that decodes successfully is returned immediately with its address
text, independently of whatever follows it; and if every candidate fails,
the resolver returns the address text and (lifted) decode error of the last
candidate. -/
theorem lookupHost_order {ε : Type} :
    (∀ (pre post : List String) (ip : String),
      (∀ p ∈ pre, (Decode p).2 ≠ none) → (Decode ip).2 = none →
      LookupHost (ε := ε) (.ok (pre ++ ip :: post)) = (ip, (Decode ip).1, none))
    ∧ (∀ (ips : List String) (h : ips ≠ []),
      (∀ p ∈ ips, (Decode p).2 ≠ none) →
      LookupHost (ε := ε) (.ok ips) =
        (ips.getLast h, (Decode (ips.getLast h)).1,
          ((Decode (ips.getLast h)).2).map liftDecodeErr)) := by
  constructor
  · intro pre post ip hpre hip
    unfold LookupHost
    dsimp only
    rw [if_neg (by rw [List.length_append, List.length_cons]; omega)]
    rw [scanCandidates_first_success pre ip post _ hpre hip]
    rfl
  · intro ips h hall
    unfold LookupHost
    dsimp only
    rw [if_neg (fun h0 => h (List.length_eq_zero.mp h0))]
    rw [scanCandidates_all_fail ips h _ hall]

/-- Witness for C3: the resolver run on the three invalid reference vectors
followed by the valid one returns the valid one; run on the three invalid
vectors alone it returns the last one's invalid-action error. -/
theorem lookupHost_order_witness :
    LookupHost (ε := Unit) (.ok ["127.240.133.76", "255.209.76.40",
        "241.179.152.73", "240.3.9.77"]) =
      ("240.3.9.77", (Decode "240.3.9.77").1, none) ∧
    LookupHost (ε := Unit) (.ok ["127.240.133.76", "255.209.76.40",
        "241.179.152.73"]) =
      ("241.179.152.73", (Decode "241.179.152.73").1,
        ((Decode "241.179.152.73").2).map liftDecodeErr) :=
  ⟨(lookupHost_order (ε := Unit)).1 ["127.240.133.76", "255.209.76.40",
      "241.179.152.73"] [] "240.3.9.77" (by decide) (by decide),
   (lookupHost_order (ε := Unit)).2 ["127.240.133.76", "255.209.76.40",
      "241.179.152.73"] (by decide) (by decide)⟩

/-- C4: the decode checks are ordered hard gates — parse, class tag,
checksum, action — and the first failing gate alone determines the error: a
bad class tag yields code -1 with no wrapped cause regardless of checksum or
action, a bad checksum after a good tag yields code -2, and action code 3
after good tag and checksum yields code -3. -/
theorem decode_gate_order :
    (∀ (s : String) (o1 o2 o3 o4 : Nat), parseQuad s = .ok (o1, o2, o3, o4) →
      quadWord o1 o2 o3 o4 >>> 28 ≠ 0xf →
      Decode s = (Result.zero, some ⟨-1, none⟩))
    ∧ (∀ (s : String) (o1 o2 o3 o4 : Nat), parseQuad s = .ok (o1, o2, o3, o4) →
      quadWord o1 o2 o3 o4 >>> 28 = 0xf →
      crc8 (quadWord o1 o2 o3 o4) ≠ 0x80 →
      Decode s = (Result.zero, some ⟨-2, none⟩))
    ∧ (∀ (s : String) (o1 o2 o3 o4 : Nat), parseQuad s = .ok (o1, o2, o3, o4) →
      quadWord o1 o2 o3 o4 >>> 28 = 0xf →
      crc8 (quadWord o1 o2 o3 o4) = 0x80 →
      quadWord o1 o2 o3 o4 >>> 8 >>> 7 &&& 3 = 3 →
      Decode s = (Result.zero, some ⟨-3, none⟩)) := by
  refine ⟨?_, ?_, ?_⟩
  · intro s o1 o2 o3 o4 hp htag
    unfold Decode
    rw [hp]
    dsimp only
    unfold decodeWord
    rw [if_pos htag]
  · intro s o1 o2 o3 o4 hp htag hcrc
    unfold Decode
    rw [hp]
    dsimp only
    unfold decodeWord
    rw [if_neg (by simp [htag]), if_pos hcrc]
  · intro s o1 o2 o3 o4 hp htag hcrc hact
    unfold Decode
    rw [hp]
    dsimp only
    unfold decodeWord
    rw [if_neg (by simp [htag]), if_neg (by simp [hcrc])]
    dsimp only
    rw [if_pos hact]

/-- Witness for C4: the three invalid reference vectors exercise the three
gates in order. -/
theorem decode_gate_order_witness :
    Decode "127.240.133.76" = (Result.zero, some ⟨-1, none⟩) ∧
    Decode "255.209.76.40" = (Result.zero, some ⟨-2, none⟩) ∧
    Decode "241.179.152.73" = (Result.zero, some ⟨-3, none⟩) :=
  ⟨decode_gate_order.1 "127.240.133.76" 127 240 133 76 (by decide) (by decide),
   decode_gate_order.2.1 "255.209.76.40" 255 209 76 40 (by decide) (by decide)
     (by decide),
   decode_gate_order.2.2 "241.179.152.73" 241 179 152 73 (by decide) (by decide)
     (by decide) (by decide)⟩

/-- C5: crc8 depends only on the low 28 bits of its 32-bit argument — the
upper 4 class-tag bits never influence the checksum. -/
theorem crc8_low28 (u : Nat) (hu : u < 2 ^ 32) :
    crc8 u = crc8 (u &&& 0x0fffffff) := by
  have h : (u <<< (32 - 28)) % 2 ^ 32 =
      ((u &&& 0x0fffffff) <<< (32 - 28)) % 2 ^ 32 := by
    rw [show (0x0fffffff : Nat) = 2 ^ 28 - 1 from by norm_num, land_mod,
      Nat.shiftLeft_eq, Nat.shiftLeft_eq]
    omega
  show (crc8Step^[28] (0x54a9abf8 ^^^ ((u <<< (32 - 28)) % 2 ^ 32))) >>> 24 =
    (crc8Step^[28] (0x54a9abf8 ^^^ (((u &&& 0x0fffffff) <<< (32 - 28)) % 2 ^ 32)))
      >>> 24
  rw [h]

/-- Witness for C5 at the valid reference word 0xf003094d. -/
theorem crc8_low28_witness :
    (0xf003094d : Nat) < 2 ^ 32 ∧
    crc8 0xf003094d = crc8 (0xf003094d &&& 0x0fffffff) :=
  ⟨by norm_num, crc8_low28 0xf003094d (by norm_num)⟩

/-- C6: crc8 applied to the 32-bit input 0x041723ff returns exactly 0x80,
the published checksum test value. -/
theorem crc8_test_value : crc8 0x041723ff = 0x80 := by decide

/-- C7 (amended): if the scan cannot extract four dot-separated integers,
Decode returns code -1 wrapping the scan failure; conversely every string
that *begins* with four dot-separated integers (each fitting 32 bits, the
fourth not followed directly by a further digit) passes the parse gate with
exactly those values — trailing input after the fourth integer is ignored,
so the strings passing the gate are not only those consisting solely of the
four octets. -/
theorem decode_parse_gate :
    (∀ (s : String) (e : ParseError), parseQuad s = .error e →
      Decode s = (Result.zero, some ⟨-1, some e⟩))
    ∧ (∀ o1 o2 o3 o4 : Nat, o1 < 2 ^ 32 → o2 < 2 ^ 32 → o3 < 2 ^ 32 →
      o4 < 2 ^ 32 → ∀ r : List Char, (∀ c, r.head? = some c → c.isDigit = false) →
      parseQuad ⟨natChars o1 ++ '.' :: (natChars o2 ++ '.' ::
        (natChars o3 ++ '.' :: (natChars o4 ++ r)))⟩ = .ok (o1, o2, o3, o4)) := by
  constructor
  · intro s e hp
    unfold Decode
    rw [hp]
  · intro o1 o2 o3 o4 h1 h2 h3 h4 r hr
    exact parseQuad_exact o1 o2 o3 o4 r h1 h2 h3 h4 hr

/-- Witness for C7: a non-numeric string is rejected with the wrapped scan
failure, and a printed quad with a trailing blank passes the gate. -/
theorem decode_parse_gate_witness :
    Decode "not-an-address" =
      (Result.zero, some ⟨-1, some ParseError.expectedInteger⟩) ∧
    parseQuad ⟨natChars 240 ++ '.' :: (natChars 3 ++ '.' ::
      (natChars 9 ++ '.' :: (natChars 77 ++ [' '])))⟩ = .ok (240, 3, 9, 77) :=
  ⟨decode_parse_gate.1 "not-an-address" ParseError.expectedInteger (by decide),
   decode_parse_gate.2 240 3 9 77 (by norm_num) (by norm_num) (by norm_num)
     (by norm_num) [' '] (by intro c hc; cases hc; decide)⟩

/-- Counterexample to C7 as stated: "240.3.9.77x" does not consist of
exactly four dot-separated integer octets, yet it passes the parse gate and
even decodes successfully, because the scan ignores trailing input. -/
theorem decode_parse_gate_counterexample :
    exactQuadShape "240.3.9.77x" = false ∧
    parseQuad "240.3.9.77x" = .ok (240, 3, 9, 77) ∧
    Decode "240.3.9.77x" =
      ({ Year := 1971, Month := 12, DTAI := 9, Delta := 1 }, none) :=
  ⟨by decide, by decide, by decide⟩

/-- C8: a failed lookup yields code -10 (lookup failed) wrapping the original
cause, and a successful lookup with an empty candidate list yields code -11
(empty response); in both cases the candidate loop never runs, so no
candidate is decoded. -/
theorem lookupHost_failure_modes {ε : Type} (e : ε) :
    LookupHost (.error e) = ("", Result.zero, some ⟨-10, some (Sum.inl e)⟩) ∧
    LookupHost (ε := ε) (.ok []) = ("", Result.zero, some ⟨-11, none⟩) :=
  ⟨rfl, rfl⟩

/-- Witness for C8 with a unit lookup error. -/
theorem lookupHost_failure_modes_witness :
    LookupHost (.error ()) =
      ("", Result.zero, some ⟨-10, some (Sum.inl ())⟩) ∧
    LookupHost (ε := Unit) (.ok []) = ("", Result.zero, some ⟨-11, none⟩) :=
  lookupHost_failure_modes ()

/-- C9: every decode produces exactly one of two mutually exclusive
outcomes — a result with month in [1, 12], non-negative dTAI and delta in
{-1, 0, +1} paired with no error, or the zero result paired with an error —
and the resolver preserves this pairing: an error-free resolver outcome is
the successful decode of the returned address, an erroneous one carries the
zero result. -/
theorem decode_outcomes :
    (∀ s : String, ((Decode s).2 = none → resultOK (Decode s).1) ∧
      ((Decode s).2 ≠ none → (Decode s).1 = Result.zero))
    ∧ (∀ (ε : Type) (lookup : Except ε (List String)),
      ((LookupHost lookup).2.2 = none →
        (LookupHost lookup).2.1 = (Decode (LookupHost lookup).1).1 ∧
        (Decode (LookupHost lookup).1).2 = none ∧
        resultOK (LookupHost lookup).2.1) ∧
      ((LookupHost lookup).2.2 ≠ none →
        (LookupHost lookup).2.1 = Result.zero)) := by
  constructor
  · exact decode_split
  · intro ε lookup
    cases lookup with
    | error e =>
      exact ⟨fun h => absurd h (by simp [LookupHost]), fun _ => rfl⟩
    | ok ips =>
      rcases Decidable.em (ips.length = 0) with h0 | h0
      · have hL : LookupHost (ε := ε) (.ok ips) =
            ("", Result.zero, some ⟨-11, none⟩) := by
          unfold LookupHost
          dsimp only
          rw [if_pos h0]
        rw [hL]
        exact ⟨fun h => absurd h (by simp), fun _ => rfl⟩
      · have hne : ips ≠ [] := fun he => h0 (by rw [he]; rfl)
        have hinv := scanCandidates_invariant ips ("", Result.zero, none) hne
        have hL : LookupHost (ε := ε) (.ok ips) =
            ((scanCandidates ("", Result.zero, none) ips).1,
             (scanCandidates ("", Result.zero, none) ips).2.1,
             ((scanCandidates ("", Result.zero, none) ips).2.2).map
               liftDecodeErr) := by
          unfold LookupHost
          dsimp only
          rw [if_neg h0]
        rw [hL]
        dsimp only
        constructor
        · intro h
          cases hrr : (scanCandidates ("", Result.zero, none) ips).2.2 with
          | some g => rw [hrr] at h; exact absurd h (by simp)
          | none =>
            obtain ⟨e1, e2⟩ := hinv.1 hrr
            exact ⟨e1, e2, e1 ▸ (decode_split _).1 e2⟩
        · intro h
          cases hrr : (scanCandidates ("", Result.zero, none) ips).2.2 with
          | none => rw [hrr] at h; exact absurd rfl h
          | some g => exact hinv.2 (by rw [hrr]; exact fun hx => by cases hx)

/-- Witness for C9 at a successful vector and a concrete resolver run. -/
theorem decode_outcomes_witness :
    resultOK (Decode "240.3.9.77").1 ∧
    ((LookupHost (ε := Unit) (.ok ["240.3.9.77"])).2.1 =
      (Decode (LookupHost (ε := Unit) (.ok ["240.3.9.77"])).1).1 ∧
     (Decode (LookupHost (ε := Unit) (.ok ["240.3.9.77"])).1).2 = none ∧
     resultOK (LookupHost (ε := Unit) (.ok ["240.3.9.77"])).2.1) :=
  ⟨(decode_outcomes.1 "240.3.9.77").1 (by decide),
   (decode_outcomes.2 Unit (.ok ["240.3.9.77"])).1 (by decide)⟩

/-- C10: whenever Decode succeeds the year lies in [1971, 2142], and a
returned year of 1971 forces a month of at least 11: the decoder adds 10 to
the 11-bit month field, so the horizon runs from November 1971 to June
2142 and earlier months have no encoding. -/
theorem decode_year_range (s : String) (h : (Decode s).2 = none) :
    1971 ≤ (Decode s).1.Year ∧ (Decode s).1.Year ≤ 2142 ∧
      ((Decode s).1.Year = 1971 → 11 ≤ (Decode s).1.Month) := by
  unfold Decode at h ⊢
  cases hp : parseQuad s with
  | error e =>
    rw [hp] at h
    exact absurd h (by simp)
  | ok q =>
    obtain ⟨o1, o2, o3, o4⟩ := q
    rw [hp] at h
    dsimp only at h ⊢
    have hm : quadWord o1 o2 o3 o4 >>> 8 >>> 7 >>> 2 &&& 0x7ff < 2048 := by
      rw [show (0x7ff : Nat) = 2 ^ 11 - 1 from by norm_num, land_mod]
      exact Nat.mod_lt _ (by norm_num)
    rcases decodeWord_cases (quadWord o1 o2 o3 o4) with hc | hc | hc | hc <;>
      rw [hc] at h ⊢
    · exact absurd h (by simp)
    · exact absurd h (by simp)
    · exact absurd h (by simp)
    · dsimp only
      omega

/-- Witness for C10 at the earliest encodable horizon, December 1971. -/
theorem decode_year_range_witness :
    1971 ≤ (Decode "240.3.9.77").1.Year ∧ (Decode "240.3.9.77").1.Year ≤ 2142 ∧
      ((Decode "240.3.9.77").1.Year = 1971 → 11 ≤ (Decode "240.3.9.77").1.Month) :=
  decode_year_range "240.3.9.77" (by decide)

